import Mathlib

/-!
Verification of `init_chroma_collections.py`.

The script drives an opaque external vector-database collaborator offering
`create_collection(name, metadata)`, `get_collection(name)`,
`list_collections()` and `Collection.count()`.  We embed the collaborator's
store as a list of collection records, and every collaborator call is given a
fault switch (a `Faults` oracle) so that the script's error handling can be
analysed: a call whose switch is on raises, exactly as an exception would in
the source.  The script itself (`main`) is translated line by line from
`src/init_chroma_collections.py`.
-/

namespace InitChroma

/-- Metadata is a flat mapping of string fields, kept as an association list. -/
abbrev Metadata := List (String × String)

/-- A collection held by the collaborator store: a name, its metadata, and the
number of documents it holds (`Collection.count()`). -/
structure Collection where
  name : String
  metadata : Metadata
  docCount : Nat
deriving DecidableEq

/-- The collaborator's store: the collections it currently holds. -/
abbrev Store := List Collection

/-- One configuration record from `get_collection_configs`. -/
structure CollectionSpec where
  name : String
  metadata : Metadata
deriving DecidableEq

/-- The five hardcoded configuration records of `get_collection_configs`
(src lines 18-66), names and metadata copied verbatim. -/
def get_collection_configs : List CollectionSpec :=
  [ ⟨"bitcoin_historical_data",
      [("description", "Historical Bitcoin price data, market indicators, and trading volumes for game analysis"),
       ("data_types", "price,volume,market_cap,technical_indicators,timestamps"),
       ("usage", "Store and query historical Bitcoin data for game scenarios and backtesting"),
       ("category", "market_data")]⟩,
    ⟨"user_portfolios",
      [("description", "User trading positions, portfolio performance, and transaction history"),
       ("data_types", "user_id,positions,balance,transactions,performance_metrics"),
       ("usage", "Track user portfolio state and trading activity across game sessions"),
       ("category", "user_data")]⟩,
    ⟨"game_achievements",
      [("description", "User achievements, progress tracking, rewards, and milestone completions"),
       ("data_types", "user_id,achievement_type,completion_date,rewards,progress"),
       ("usage", "Store and retrieve user progress for gamification and reward systems"),
       ("category", "gamification")]⟩,
    ⟨"market_analysis",
      [("description", "Technical analysis results, market predictions, and trading signals"),
       ("data_types", "analysis_type,predictions,confidence_scores,trading_signals,timeframes"),
       ("usage", "Store AI-generated market analysis and trading recommendations for the game"),
       ("category", "analytics")]⟩,
    ⟨"educational_content",
      [("description", "Trading tutorials, educational materials, tips, and strategy guides"),
       ("data_types", "content_type,difficulty_level,topics,media_urls,learning_objectives"),
       ("usage", "Provide educational content to help users learn trading concepts and strategies"),
       ("category", "education")]⟩ ]

/-- Fault oracle for the collaborator: each field tells whether the
corresponding collaborator call raises an exception (`initFail` for
`PersistentClient`, `getFail n` for a transient failure of
`get_collection(n)` in the creation loop, `createFail n` for
`create_collection(n, ...)`, `listFail` for `list_collections()`,
`verifyGetFail n` and `countFail n` for `get_collection(n)`/`count()` in the
verification pass). -/
structure Faults where
  initFail : Bool
  getFail : String → Bool
  createFail : String → Bool
  listFail : Bool
  verifyGetFail : String → Bool
  countFail : String → Bool

/-- The fault-free collaborator: every call behaves normally. -/
def noFaults : Faults :=
  ⟨false, fun _ => false, fun _ => false, false, fun _ => false, fun _ => false⟩

/-- `get_collection(n)`: the first collection of the store named `n`, if any
(collection names are unique in the collaborator, see `storeNames`). -/
def findColl (s : Store) (n : String) : Option Collection :=
  s.find? (fun c => c.name == n)

/-- The names of the collections currently in the store. -/
def storeNames (s : Store) : List String :=
  s.map (fun c => c.name)

/-- Outcome of the body of the creation loop for one configuration record:
whether the body succeeded (`ok = false` is the `except`/`return False` path,
src lines 112-114), the store afterwards, whether the `already exists` branch
was taken (src line 101), and whether `create_collection` was called. -/
structure StepResult where
  ok : Bool
  store : Store
  existedBranch : Bool
  createCalled : Bool
deriving DecidableEq

/-- The `create_collection` call of src lines 104-107: raises when its fault
switch is on or the name already exists, otherwise appends a fresh, empty
collection carrying the configured metadata. -/
def createStep (f : Faults) (s : Store) (cfg : CollectionSpec) : StepResult :=
  if f.createFail cfg.name then ⟨false, s, false, true⟩
  else if (findColl s cfg.name).isSome then ⟨false, s, false, true⟩
  else ⟨true, s ++ [⟨cfg.name, cfg.metadata, 0⟩], false, true⟩

/-- The get-before-create body, src lines 99-110: try `get_collection`; if it
returns the collection, the `already exists` branch is taken; on ANY failure
(transient fault or not-found) fall through to `create_collection`. -/
def processConfig (f : Faults) (s : Store) (cfg : CollectionSpec) : StepResult :=
  if f.getFail cfg.name then createStep f s cfg
  else if (findColl s cfg.name).isSome then ⟨true, s, true, false⟩
  else createStep f s cfg

/-- Result of the creation loop: `ok = false` when some body failed (the
loop returns immediately, src line 114), the store afterwards,
`existedFlags` recording per processed configuration whether the
`already exists` branch was taken (mirroring `created_collections`,
src line 110), and the names for which `create_collection` was called. -/
structure LoopResult where
  ok : Bool
  store : Store
  existedFlags : List (String × Bool)
  createCalls : List String
deriving DecidableEq

/-- The creation loop, src lines 91-114: process the configuration records in
order, stopping at the first failing body. -/
def creationLoop (f : Faults) (s : Store) : List CollectionSpec → LoopResult
  | [] => ⟨true, s, [], []⟩
  | cfg :: rest =>
    let r := processConfig f s cfg
    if r.ok then
      let r2 := creationLoop f r.store rest
      ⟨r2.ok, r2.store, (cfg.name, r.existedBranch) :: r2.existedFlags,
        (if r.createCalled then [cfg.name] else []) ++ r2.createCalls⟩
    else
      ⟨false, r.store, [], if r.createCalled then [cfg.name] else []⟩

/-- One record of the JSON report `chroma_collections_info.json`,
src lines 141-145: exactly the fields `name`, `metadata`, `document_count`. -/
structure ReportEntry where
  name : String
  metadata : Metadata
  document_count : Nat
deriving DecidableEq

/-- One listed collection's part of the verification pass, src lines 126-128
and 140-145: `get_collection(name)` (raising on a fault or not-found) followed
by `count()`; `none` is the raising path, caught at src line 152. -/
def verifyOne (f : Faults) (s : Store) (c : Collection) : Option ReportEntry :=
  if f.verifyGetFail c.name then none
  else
    match findColl s c.name with
    | none => none
    | some c2 =>
      if f.countFail c.name then none
      else some ⟨c.name, c.metadata, c2.docCount⟩

/-- Walk the listed collections, failing as soon as one raises. -/
def verifyAll (f : Faults) (s : Store) : List Collection → Option (List ReportEntry)
  | [] => some []
  | c :: rest =>
    match verifyOne f s c with
    | none => none
    | some e => (verifyAll f s rest).map (fun l => e :: l)

/-- The verification/listing pass, src lines 122-154: `list_collections()`
(which returns every collection of the store) then per collection
`get_collection` and `count`, producing the report records; `none` is the
`except` path of src lines 152-154. -/
def verifyPass (f : Faults) (s : Store) : Option (List ReportEntry) :=
  if f.listFail then none
  else verifyAll f s s

/-- Observable outcome of one run of `main`: the boolean it returns, the
collaborator store afterwards, the report written (or `none` when
`chroma_collections_info.json` was not written), and the creation-loop
traces. -/
structure RunResult where
  success : Bool
  store : Store
  report : Option (List ReportEntry)
  existedFlags : List (String × Bool)
  createCalls : List String
deriving DecidableEq

/-- `main`, src lines 68-159: initialize the client (abort returning `False`
on failure, src lines 81-83), run the creation loop (abort on failure,
src line 114), then the verification pass which writes the report file
(abort on failure, src line 154); return `True` only after all succeeded. -/
def main (f : Faults) (s0 : Store) : RunResult :=
  if f.initFail then ⟨false, s0, none, [], []⟩
  else
    let lr := creationLoop f s0 get_collection_configs
    if lr.ok then
      match verifyPass f lr.store with
      | none => ⟨false, lr.store, none, lr.existedFlags, lr.createCalls⟩
      | some rep => ⟨true, lr.store, some rep, lr.existedFlags, lr.createCalls⟩
    else ⟨false, lr.store, none, lr.existedFlags, lr.createCalls⟩

/-- The process exit code, src lines 161-163: `exit(0 if success else 1)`. -/
def exitCode (f : Faults) (s0 : Store) : Nat :=
  if (main f s0).success then 0 else 1

/-! ### Basic lemmas about the store -/

theorem storeNames_nil : storeNames [] = [] := rfl

theorem storeNames_cons (c : Collection) (s : Store) :
    storeNames (c :: s) = c.name :: storeNames s := rfl

theorem storeNames_append (s t : Store) :
    storeNames (s ++ t) = storeNames s ++ storeNames t := by
  simp [storeNames]

theorem mem_storeNames (s : Store) (n : String) :
    n ∈ storeNames s ↔ ∃ c ∈ s, c.name = n := by
  simp [storeNames]

theorem findColl_cons (a : Collection) (s : Store) (n : String) :
    findColl (a :: s) n = if a.name = n then some a else findColl s n := by
  by_cases h : a.name = n <;> simp [findColl, List.find?_cons, h]

theorem findColl_isSome_iff (s : Store) (n : String) :
    (findColl s n).isSome = true ↔ n ∈ storeNames s := by
  induction s with
  | nil => simp [findColl, storeNames]
  | cons a rest ih =>
    rw [findColl_cons, storeNames_cons]
    by_cases h : a.name = n
    · simp [h]
    · have h' : ¬n = a.name := fun he => h he.symm
      simp [h, h', ih]

theorem findColl_eq_none_iff (s : Store) (n : String) :
    findColl s n = none ↔ n ∉ storeNames s := by
  rw [← findColl_isSome_iff]
  cases findColl s n <;> simp

theorem findColl_self (s : Store) (c : Collection)
    (hnd : (storeNames s).Nodup) (hc : c ∈ s) : findColl s c.name = some c := by
  induction s with
  | nil => cases hc
  | cons a rest ih =>
    rw [storeNames_cons, List.nodup_cons] at hnd
    rcases List.mem_cons.mp hc with h | h
    · subst h
      rw [findColl_cons, if_pos rfl]
    · have hne : a.name ≠ c.name := by
        intro he
        exact hnd.1 (he ▸ (mem_storeNames rest c.name).mpr ⟨c, h, rfl⟩)
      rw [findColl_cons, if_neg hne]
      exact ih hnd.2 h

/-! ### The creation-loop body only appends -/

theorem createStep_store_cases (f : Faults) (s : Store) (cfg : CollectionSpec) :
    (createStep f s cfg).store = s ∨
      ((createStep f s cfg).store = s ++ [⟨cfg.name, cfg.metadata, 0⟩] ∧
        cfg.name ∉ storeNames s) := by
  cases h1 : f.createFail cfg.name
  · cases h2 : (findColl s cfg.name).isSome
    · refine Or.inr ⟨by simp [createStep, h1, h2], ?_⟩
      rw [← findColl_isSome_iff, h2]
      simp
    · exact Or.inl (by simp [createStep, h1, h2])
  · exact Or.inl (by simp [createStep, h1])

theorem processConfig_store_cases (f : Faults) (s : Store) (cfg : CollectionSpec) :
    (processConfig f s cfg).store = s ∨
      ((processConfig f s cfg).store = s ++ [⟨cfg.name, cfg.metadata, 0⟩] ∧
        cfg.name ∉ storeNames s) := by
  cases hg : f.getFail cfg.name
  · cases h2 : (findColl s cfg.name).isSome
    · have : processConfig f s cfg = createStep f s cfg := by
        simp [processConfig, hg, h2]
      rw [this]
      exact createStep_store_cases f s cfg
    · exact Or.inl (by simp [processConfig, hg, h2])
  · have : processConfig f s cfg = createStep f s cfg := by
      simp [processConfig, hg]
    rw [this]
    exact createStep_store_cases f s cfg

theorem createStep_ok_store (f : Faults) (s : Store) (cfg : CollectionSpec)
    (h : (createStep f s cfg).ok = true) :
    (createStep f s cfg).store = s ++ [⟨cfg.name, cfg.metadata, 0⟩] := by
  cases h1 : f.createFail cfg.name
  · cases h2 : (findColl s cfg.name).isSome
    · simp [createStep, h1, h2]
    · simp [createStep, h1, h2] at h
  · simp [createStep, h1] at h

theorem processConfig_ok_store (f : Faults) (s : Store) (cfg : CollectionSpec)
    (h : (processConfig f s cfg).ok = true) :
    cfg.name ∈ storeNames (processConfig f s cfg).store := by
  cases hg : f.getFail cfg.name
  · cases h2 : (findColl s cfg.name).isSome
    · have he : processConfig f s cfg = createStep f s cfg := by
        simp [processConfig, hg, h2]
      rw [he] at h ⊢
      rw [createStep_ok_store f s cfg h, storeNames_append]
      simp [storeNames]
    · have he : processConfig f s cfg =
          ⟨true, s, true, false⟩ := by simp [processConfig, hg, h2]
      rw [he]
      rw [← findColl_isSome_iff]
      exact h2
  · have he : processConfig f s cfg = createStep f s cfg := by
      simp [processConfig, hg]
    rw [he] at h ⊢
    rw [createStep_ok_store f s cfg h, storeNames_append]
    simp [storeNames]

theorem processConfig_ok_created (f : Faults) (s : Store) (cfg : CollectionSpec)
    (h : (processConfig f s cfg).ok = true) (hn : cfg.name ∉ storeNames s) :
    (processConfig f s cfg).store = s ++ [⟨cfg.name, cfg.metadata, 0⟩] := by
  rcases processConfig_store_cases f s cfg with hs | ⟨hs, _⟩
  · exfalso
    have := processConfig_ok_store f s cfg h
    rw [hs] at this
    exact hn this
  · exact hs

/-! ### The creation loop -/

theorem creationLoop_nil (f : Faults) (s : Store) :
    creationLoop f s [] = ⟨true, s, [], []⟩ := rfl

theorem creationLoop_cons (f : Faults) (s : Store) (cfg : CollectionSpec)
    (rest : List CollectionSpec) :
    creationLoop f s (cfg :: rest) =
      if (processConfig f s cfg).ok then
        ⟨(creationLoop f (processConfig f s cfg).store rest).ok,
         (creationLoop f (processConfig f s cfg).store rest).store,
         (cfg.name, (processConfig f s cfg).existedBranch) ::
           (creationLoop f (processConfig f s cfg).store rest).existedFlags,
         (if (processConfig f s cfg).createCalled then [cfg.name] else []) ++
           (creationLoop f (processConfig f s cfg).store rest).createCalls⟩
      else
        ⟨false, (processConfig f s cfg).store, [],
          if (processConfig f s cfg).createCalled then [cfg.name] else []⟩ := rfl

theorem creationLoop_store_append (f : Faults) (cfgs : List CollectionSpec) :
    ∀ s : Store, ∃ t,
      (creationLoop f s cfgs).store = s ++ t ∧
        ∀ c ∈ t, ∃ cfg ∈ cfgs, c = ⟨cfg.name, cfg.metadata, 0⟩ := by
  induction cfgs with
  | nil =>
    intro s
    exact ⟨[], by simp [creationLoop_nil], by simp⟩
  | cons cfg rest ih =>
    intro s
    cases hok : (processConfig f s cfg).ok
    · rcases processConfig_store_cases f s cfg with hs | ⟨hs, _⟩
      · exact ⟨[], by simp [creationLoop_cons, hok, hs], by simp⟩
      · refine ⟨[⟨cfg.name, cfg.metadata, 0⟩], by simp [creationLoop_cons, hok, hs], ?_⟩
        intro c hc
        simp at hc
        exact ⟨cfg, by simp, hc⟩
    · obtain ⟨t', ht', hmem'⟩ := ih (processConfig f s cfg).store
      rcases processConfig_store_cases f s cfg with hs | ⟨hs, _⟩
      · refine ⟨t', ?_, ?_⟩
        · simp only [creationLoop_cons, hok, if_true]
          rw [ht', hs]
        · intro c hc
          obtain ⟨cfg', h1, h2⟩ := hmem' c hc
          exact ⟨cfg', List.mem_cons_of_mem _ h1, h2⟩
      · refine ⟨⟨cfg.name, cfg.metadata, 0⟩ :: t', ?_, ?_⟩
        · simp only [creationLoop_cons, hok, if_true]
          rw [ht', hs]
          simp
        · intro c hc
          rcases List.mem_cons.mp hc with h | h
          · exact ⟨cfg, List.mem_cons_self _ _, h⟩
          · obtain ⟨cfg', h1, h2⟩ := hmem' c h
            exact ⟨cfg', List.mem_cons_of_mem _ h1, h2⟩

theorem processConfig_nodup (f : Faults) (s : Store) (cfg : CollectionSpec)
    (h : (storeNames s).Nodup) :
    (storeNames (processConfig f s cfg).store).Nodup := by
  rcases processConfig_store_cases f s cfg with hs | ⟨hs, hn⟩
  · rw [hs]; exact h
  · rw [hs, storeNames_append]
    simp [storeNames, List.nodup_append]
    constructor
    · simpa [storeNames] using h
    · simpa [storeNames] using hn

theorem creationLoop_nodup (f : Faults) (cfgs : List CollectionSpec) :
    ∀ s : Store, (storeNames s).Nodup →
      (storeNames (creationLoop f s cfgs).store).Nodup := by
  induction cfgs with
  | nil =>
    intro s h
    simpa [creationLoop_nil] using h
  | cons cfg rest ih =>
    intro s h
    cases hok : (processConfig f s cfg).ok
    · simpa [creationLoop_cons, hok] using processConfig_nodup f s cfg h
    · simpa [creationLoop_cons, hok] using
        ih (processConfig f s cfg).store (processConfig_nodup f s cfg h)

theorem creationLoop_ok_names (f : Faults) (cfgs : List CollectionSpec) :
    ∀ s : Store, (creationLoop f s cfgs).ok = true →
      ∀ cfg ∈ cfgs, cfg.name ∈ storeNames (creationLoop f s cfgs).store := by
  induction cfgs with
  | nil =>
    intro s _ cfg hmem
    cases hmem
  | cons cfg rest ih =>
    intro s hok2 cfg' hmem
    cases hok : (processConfig f s cfg).ok
    · rw [creationLoop_cons] at hok2
      simp [hok] at hok2
    · have hok2' : (creationLoop f (processConfig f s cfg).store rest).ok = true := by
        rw [creationLoop_cons] at hok2
        simpa [hok] using hok2
      have hstore : (creationLoop f s (cfg :: rest)).store =
          (creationLoop f (processConfig f s cfg).store rest).store := by
        simp [creationLoop_cons, hok]
      rcases List.mem_cons.mp hmem with h | h
      · obtain ⟨t, ht, _⟩ :=
          creationLoop_store_append f rest (processConfig f s cfg).store
        rw [hstore, ht, storeNames_append, h]
        exact List.mem_append_left _ (processConfig_ok_store f s cfg hok)
      · rw [hstore]
        exact ih (processConfig f s cfg).store hok2' cfg' h

theorem creationLoop_ok_created (f : Faults) (cfgs : List CollectionSpec) :
    ∀ s : Store, (cfgs.map (fun c => c.name)).Nodup →
      (creationLoop f s cfgs).ok = true →
      ∀ cfg ∈ cfgs, cfg.name ∉ storeNames s →
        (⟨cfg.name, cfg.metadata, 0⟩ : Collection) ∈ (creationLoop f s cfgs).store := by
  induction cfgs with
  | nil =>
    intro s _ _ cfg hmem
    cases hmem
  | cons cfg rest ih =>
    intro s hnd hok2 cfg' hmem hnotin
    rw [List.map_cons, List.nodup_cons] at hnd
    cases hok : (processConfig f s cfg).ok
    · rw [creationLoop_cons] at hok2
      simp [hok] at hok2
    · have hok2' : (creationLoop f (processConfig f s cfg).store rest).ok = true := by
        rw [creationLoop_cons] at hok2
        simpa [hok] using hok2
      have hstore : (creationLoop f s (cfg :: rest)).store =
          (creationLoop f (processConfig f s cfg).store rest).store := by
        simp [creationLoop_cons, hok]
      rcases List.mem_cons.mp hmem with h | h
      · have hcr : (processConfig f s cfg).store =
            s ++ [⟨cfg.name, cfg.metadata, 0⟩] :=
          processConfig_ok_created f s cfg hok (h ▸ hnotin)
        obtain ⟨t, ht, _⟩ :=
          creationLoop_store_append f rest (processConfig f s cfg).store
        rw [hstore, ht, hcr, h]
        simp
      · have hne : cfg'.name ≠ cfg.name := by
          intro he
          exact hnd.1 (he ▸ List.mem_map.mpr ⟨cfg', h, rfl⟩)
        have hnotin' : cfg'.name ∉ storeNames (processConfig f s cfg).store := by
          rcases processConfig_store_cases f s cfg with hs | ⟨hs, _⟩
          · rw [hs]; exact hnotin
          · rw [hs, storeNames_append]
            intro hc
            rcases List.mem_append.mp hc with hc | hc
            · exact hnotin hc
            · simp [storeNames] at hc
              exact hne hc
        rw [hstore]
        exact ih (processConfig f s cfg).store hnd.2 hok2' cfg' h hnotin'

theorem creationLoop_all_present (cfgs : List CollectionSpec) :
    ∀ s : Store, (∀ cfg ∈ cfgs, cfg.name ∈ storeNames s) →
      creationLoop noFaults s cfgs =
        ⟨true, s, cfgs.map (fun cfg => (cfg.name, true)), []⟩ := by
  induction cfgs with
  | nil =>
    intro s _
    simp [creationLoop_nil]
  | cons cfg rest ih =>
    intro s h
    have hsome : (findColl s cfg.name).isSome = true :=
      (findColl_isSome_iff s cfg.name).mpr (h cfg (List.mem_cons_self _ _))
    have hp : processConfig noFaults s cfg = ⟨true, s, true, false⟩ := by
      simp [processConfig, noFaults, hsome]
    have ihr := ih s (fun c hc => h c (List.mem_cons_of_mem _ hc))
    rw [creationLoop_cons, hp]
    simp [ihr]

theorem creationLoop_fail_flags (f : Faults) (cfgs : List CollectionSpec) :
    ∀ s : Store, (creationLoop f s cfgs).ok = false →
      (creationLoop f s cfgs).existedFlags.length < cfgs.length := by
  induction cfgs with
  | nil =>
    intro s h
    rw [creationLoop_nil] at h
    cases h
  | cons cfg rest ih =>
    intro s h
    cases hok : (processConfig f s cfg).ok
    · simp [creationLoop_cons, hok, Nat.succ_pos]
    · have h' : (creationLoop f (processConfig f s cfg).store rest).ok = false := by
        rw [creationLoop_cons] at h
        simpa [hok] using h
      have := ih (processConfig f s cfg).store h'
      rw [creationLoop_cons]
      simpa [hok, Nat.succ_lt_succ_iff] using this

theorem creationLoop_preexisting (f : Faults) (n : String)
    (hg : f.getFail n = false) (cfgs : List CollectionSpec) :
    ∀ s : Store, n ∈ storeNames s →
      n ∉ (creationLoop f s cfgs).createCalls ∧
        ∀ b, (n, b) ∈ (creationLoop f s cfgs).existedFlags → b = true := by
  induction cfgs with
  | nil =>
    intro s _
    simp [creationLoop_nil]
  | cons cfg rest ih =>
    intro s hmem
    by_cases hn : cfg.name = n
    · have hsome : (findColl s cfg.name).isSome = true :=
        (findColl_isSome_iff s cfg.name).mpr (hn ▸ hmem)
      have hp : processConfig f s cfg = ⟨true, s, true, false⟩ := by
        have hsome' : (findColl s n).isSome = true := by
          rw [← hn]; exact hsome
        simp [processConfig, hn, hg, hsome']
      have ihr := ih s hmem
      rw [creationLoop_cons, hp]
      simp only [if_true]
      refine ⟨ihr.1, ?_⟩
      intro b hb
      rcases List.mem_cons.mp hb with h | h
      · exact (Prod.mk.injEq _ _ _ _ ▸ h).2
      · exact ihr.2 b h
    · cases hok : (processConfig f s cfg).ok
      · rw [creationLoop_cons]
        simp only [hok, Bool.false_eq_true, if_false]
        constructor
        · intro hc
          rcases hc with hc
          · split at hc
            · simp at hc
              exact hn hc.symm
            · cases hc
        · intro b hb
          cases hb
      · have hmem' : n ∈ storeNames (processConfig f s cfg).store := by
          rcases processConfig_store_cases f s cfg with hs | ⟨hs, _⟩
          · rw [hs]; exact hmem
          · rw [hs, storeNames_append]
            exact List.mem_append_left _ hmem
        have ihr := ih (processConfig f s cfg).store hmem'
        rw [creationLoop_cons]
        simp only [hok, if_true]
        constructor
        · intro hc
          rcases List.mem_append.mp hc with hc | hc
          · split at hc
            · simp at hc
              exact hn hc.symm
            · cases hc
          · exact ihr.1 hc
        · intro b hb
          rcases List.mem_cons.mp hb with h | h
          · exact absurd (Prod.mk.injEq _ _ _ _ ▸ h).1.symm hn
          · exact ihr.2 b h

/-! ### The verification pass -/

theorem verifyOne_noFaults (s : Store) (c : Collection)
    (h : c.name ∈ storeNames s) : ∃ e, verifyOne noFaults s c = some e := by
  cases hf : findColl s c.name with
  | none => exact absurd ((findColl_eq_none_iff s c.name).mp hf) (by simp [h])
  | some c2 =>
    exact ⟨⟨c.name, c.metadata, c2.docCount⟩, by simp [verifyOne, noFaults, hf]⟩

theorem verifyAll_noFaults_isSome (s : Store) :
    ∀ l : List Collection, (∀ c ∈ l, c.name ∈ storeNames s) →
      (verifyAll noFaults s l).isSome = true := by
  intro l
  induction l with
  | nil => intro _; simp [verifyAll]
  | cons c rest ih =>
    intro h
    obtain ⟨e, he⟩ := verifyOne_noFaults s c (h c (List.mem_cons_self _ _))
    have := ih (fun c' hc' => h c' (List.mem_cons_of_mem _ hc'))
    cases hv : verifyAll noFaults s rest with
    | none => rw [hv] at this; cases this
    | some l' => simp [verifyAll, he, hv]

theorem verifyPass_noFaults_isSome (s : Store) :
    (verifyPass noFaults s).isSome = true := by
  have : ∀ c ∈ s, c.name ∈ storeNames s :=
    fun c hc => List.mem_map.mpr ⟨c, hc, rfl⟩
  simpa [verifyPass, noFaults] using verifyAll_noFaults_isSome s s this

theorem verifyOne_spec (f : Faults) (s : Store) (c : Collection)
    (e : ReportEntry) (h : verifyOne f s c = some e) :
    e.name = c.name ∧ e.metadata = c.metadata ∧
      ∃ c2, findColl s c.name = some c2 ∧ e.document_count = c2.docCount := by
  cases hvg : f.verifyGetFail c.name
  · cases hf : findColl s c.name with
    | none => simp [verifyOne, hvg, hf] at h
    | some c2 =>
      cases hcf : f.countFail c.name
      · simp [verifyOne, hvg, hf, hcf] at h
        refine ⟨?_, ?_, c2, rfl, ?_⟩ <;> rw [← h]
      · simp [verifyOne, hvg, hf, hcf] at h
  · simp [verifyOne, hvg] at h

theorem verifyAll_spec (f : Faults) (s : Store) :
    ∀ (l : List Collection) (r : List ReportEntry), verifyAll f s l = some r →
      r.length = l.length ∧
        ∀ e ∈ r, ∃ c ∈ l, e.name = c.name ∧ e.metadata = c.metadata ∧
          ∃ c2, findColl s c.name = some c2 ∧ e.document_count = c2.docCount := by
  intro l
  induction l with
  | nil =>
    intro r h
    simp [verifyAll] at h
    subst h
    simp
  | cons c rest ih =>
    intro r h
    cases hv1 : verifyOne f s c with
    | none => simp [verifyAll, hv1] at h
    | some e =>
      rw [verifyAll, hv1] at h
      obtain ⟨r', hr', hre⟩ := Option.map_eq_some'.mp h
      obtain ⟨hlen, hmem⟩ := ih r' hr'
      subst hre
      refine ⟨by simp [hlen], ?_⟩
      intro e' he'
      rcases List.mem_cons.mp he' with h' | h'
      · obtain ⟨h1, h2, c2, h3, h4⟩ := verifyOne_spec f s c e hv1
        exact ⟨c, List.mem_cons_self _ _, h' ▸ ⟨h1, h2, c2, h3, h4⟩⟩
      · obtain ⟨c', hc', hrest⟩ := hmem e' h'
        exact ⟨c', List.mem_cons_of_mem _ hc', hrest⟩

theorem verifyPass_spec (f : Faults) (s : Store) (r : List ReportEntry)
    (h : verifyPass f s = some r) :
    r.length = s.length ∧
      ∀ e ∈ r, ∃ c ∈ s, e.name = c.name ∧ e.metadata = c.metadata ∧
        ∃ c2, findColl s c.name = some c2 ∧ e.document_count = c2.docCount := by
  cases hl : f.listFail
  · rw [verifyPass, hl] at h
    simpa using verifyAll_spec f s s r h
  · simp [verifyPass, hl] at h

/-! ### Unfolding `main` -/

theorem main_eq_initFail (f : Faults) (s0 : Store) (h : f.initFail = true) :
    main f s0 = ⟨false, s0, none, [], []⟩ := by
  simp [main, h]

theorem main_eq_loopFail (f : Faults) (s0 : Store)
    (h1 : f.initFail = false)
    (h2 : (creationLoop f s0 get_collection_configs).ok = false) :
    main f s0 = ⟨false, (creationLoop f s0 get_collection_configs).store, none,
      (creationLoop f s0 get_collection_configs).existedFlags,
      (creationLoop f s0 get_collection_configs).createCalls⟩ := by
  simp [main, h1, h2]

theorem main_eq_verifyFail (f : Faults) (s0 : Store)
    (h1 : f.initFail = false)
    (h2 : (creationLoop f s0 get_collection_configs).ok = true)
    (h3 : verifyPass f (creationLoop f s0 get_collection_configs).store = none) :
    main f s0 = ⟨false, (creationLoop f s0 get_collection_configs).store, none,
      (creationLoop f s0 get_collection_configs).existedFlags,
      (creationLoop f s0 get_collection_configs).createCalls⟩ := by
  simp [main, h1, h2, h3]

theorem main_eq_verifyOk (f : Faults) (s0 : Store) (r : List ReportEntry)
    (h1 : f.initFail = false)
    (h2 : (creationLoop f s0 get_collection_configs).ok = true)
    (h3 : verifyPass f (creationLoop f s0 get_collection_configs).store = some r) :
    main f s0 = ⟨true, (creationLoop f s0 get_collection_configs).store, some r,
      (creationLoop f s0 get_collection_configs).existedFlags,
      (creationLoop f s0 get_collection_configs).createCalls⟩ := by
  simp [main, h1, h2, h3]

theorem main_success_inv (f : Faults) (s0 : Store)
    (h : (main f s0).success = true) :
    f.initFail = false ∧
      (creationLoop f s0 get_collection_configs).ok = true ∧
      (main f s0).store = (creationLoop f s0 get_collection_configs).store ∧
      ∃ r, verifyPass f (creationLoop f s0 get_collection_configs).store = some r ∧
        (main f s0).report = some r := by
  cases hf : f.initFail
  · cases hok : (creationLoop f s0 get_collection_configs).ok
    · rw [main_eq_loopFail f s0 hf hok] at h
      cases h
    · cases hv : verifyPass f (creationLoop f s0 get_collection_configs).store with
      | none =>
        rw [main_eq_verifyFail f s0 hf hok hv] at h
        cases h
      | some r =>
        refine ⟨rfl, rfl, ?_, r, rfl, ?_⟩
        · rw [main_eq_verifyOk f s0 r hf hok hv]
        · rw [main_eq_verifyOk f s0 r hf hok hv]
  · rw [main_eq_initFail f s0 hf] at h
    cases h

theorem main_trace (f : Faults) (s0 : Store) (h : f.initFail = false) :
    (main f s0).store = (creationLoop f s0 get_collection_configs).store ∧
      (main f s0).existedFlags =
        (creationLoop f s0 get_collection_configs).existedFlags ∧
      (main f s0).createCalls =
        (creationLoop f s0 get_collection_configs).createCalls := by
  cases hok : (creationLoop f s0 get_collection_configs).ok
  · rw [main_eq_loopFail f s0 h hok]
    exact ⟨rfl, rfl, rfl⟩
  · cases hv : verifyPass f (creationLoop f s0 get_collection_configs).store with
    | none =>
      rw [main_eq_verifyFail f s0 h hok hv]
      exact ⟨rfl, rfl, rfl⟩
    | some r =>
      rw [main_eq_verifyOk f s0 r h hok hv]
      exact ⟨rfl, rfl, rfl⟩

theorem main_store_append (f : Faults) (s0 : Store) :
    ∃ t, (main f s0).store = s0 ++ t ∧
      ∀ c ∈ t, ∃ cfg ∈ get_collection_configs, c = ⟨cfg.name, cfg.metadata, 0⟩ := by
  cases hf : f.initFail
  · obtain ⟨hstore, _, _⟩ := main_trace f s0 hf
    rw [hstore]
    exact creationLoop_store_append f get_collection_configs s0
  · rw [main_eq_initFail f s0 hf]
    exact ⟨[], by simp, by simp⟩

/-! ### Concrete stores and fault patterns used by the witnesses -/

/-- A store already holding a `user_portfolios` collection with metadata
different from the configured one, and 7 documents. -/
def preEx7 : Store := [⟨"user_portfolios", [("category", "preexisting")], 7⟩]

/-- Only the client construction fails. -/
def initFailOnly : Faults :=
  ⟨true, fun _ => false, fun _ => false, false, fun _ => false, fun _ => false⟩

/-- Only `list_collections` fails. -/
def listFailOnly : Faults :=
  ⟨false, fun _ => false, fun _ => false, true, fun _ => false, fun _ => false⟩

/-- Every `get_collection` of the creation loop fails transiently. -/
def getFailAll : Faults :=
  ⟨false, fun _ => true, fun _ => false, false, fun _ => false, fun _ => false⟩

/-- Every `create_collection` fails. -/
def createFailAll : Faults :=
  ⟨false, fun _ => false, fun _ => true, false, fun _ => false, fun _ => false⟩

/-- `create_collection` fails exactly for `game_achievements`, the third of
the five configured names. -/
def createFailGA : Faults :=
  ⟨false, fun _ => false, fun n => n == "game_achievements", false,
    fun _ => false, fun _ => false⟩

/-! ### The claims -/

/-- Claim C1, counterexample: starting from a store where `user_portfolios`
already exists with different metadata, `main` succeeds but the store does
NOT hold the configured metadata for every configured name — the
`already exists` branch keeps the old metadata, so the claim's
"for every prior store state" fails. -/
theorem claim_C1_counterexample :
    (main noFaults preEx7).success = true ∧
      ¬ ∀ cfg ∈ get_collection_configs, ∃ c ∈ (main noFaults preEx7).store,
          c.name = cfg.name ∧ c.metadata = cfg.metadata := by
  decide

/-- Claim C1, amended: after a successful run each configured name is present
in the store, and whenever no collection with that name existed before the
run, the run created it with exactly the configured metadata (and zero
documents); a pre-existing collection keeps its prior metadata. -/
theorem claim_C1 (f : Faults) (s0 : Store) (h : (main f s0).success = true) :
    ∀ cfg ∈ get_collection_configs,
      cfg.name ∈ storeNames (main f s0).store ∧
        (cfg.name ∉ storeNames s0 →
          (⟨cfg.name, cfg.metadata, 0⟩ : Collection) ∈ (main f s0).store) := by
  intro cfg hcfg
  obtain ⟨hinit, hok, hstore, _⟩ := main_success_inv f s0 h
  rw [hstore]
  exact ⟨creationLoop_ok_names f get_collection_configs s0 hok cfg hcfg,
    fun hnot =>
      creationLoop_ok_created f get_collection_configs s0 (by decide) hok
        cfg hcfg hnot⟩

/-- Witness for C1: from the empty store a fault-free run succeeds and the
amended property holds. -/
theorem claim_C1_witness :
    (main noFaults []).success = true ∧
      ∀ cfg ∈ get_collection_configs,
        cfg.name ∈ storeNames (main noFaults []).store ∧
          (cfg.name ∉ storeNames ([] : Store) →
            (⟨cfg.name, cfg.metadata, 0⟩ : Collection) ∈ (main noFaults []).store) :=
  ⟨by decide, claim_C1 noFaults [] (by decide)⟩

/-- Claim C2: if a run of `main` succeeds, a second fault-free run on the
resulting store succeeds, takes the `already exists` branch for all five
configured collections, never calls `create_collection`, leaves the store
unchanged, and the process exits with code 0. -/
theorem claim_C2 (f : Faults) (s0 : Store) (h : (main f s0).success = true) :
    (main noFaults (main f s0).store).success = true ∧
      (main noFaults (main f s0).store).store = (main f s0).store ∧
      (main noFaults (main f s0).store).existedFlags =
        get_collection_configs.map (fun cfg => (cfg.name, true)) ∧
      (main noFaults (main f s0).store).createCalls = [] ∧
      exitCode noFaults (main f s0).store = 0 := by
  obtain ⟨hinit, hok, hstore, _⟩ := main_success_inv f s0 h
  have hpres : ∀ cfg ∈ get_collection_configs,
      cfg.name ∈ storeNames (main f s0).store := by
    rw [hstore]
    exact creationLoop_ok_names f get_collection_configs s0 hok
  have hloop := creationLoop_all_present get_collection_configs (main f s0).store hpres
  obtain ⟨r, hr⟩ :=
    Option.isSome_iff_exists.mp (verifyPass_noFaults_isSome (main f s0).store)
  have hv : verifyPass noFaults
      (creationLoop noFaults (main f s0).store get_collection_configs).store
        = some r := by
    rw [hloop]
    exact hr
  have hm := main_eq_verifyOk noFaults (main f s0).store r rfl (by rw [hloop]) hv
  rw [hm, hloop]
  exact ⟨rfl, rfl, rfl, rfl, by simp [exitCode, hm, hloop]⟩

/-- Witness for C2: the first run starts on the empty store. -/
theorem claim_C2_witness :
    (main noFaults []).success = true ∧
      ((main noFaults (main noFaults []).store).success = true ∧
        (main noFaults (main noFaults []).store).store = (main noFaults []).store ∧
        (main noFaults (main noFaults []).store).existedFlags =
          get_collection_configs.map (fun cfg => (cfg.name, true)) ∧
        (main noFaults (main noFaults []).store).createCalls = [] ∧
        exitCode noFaults (main noFaults []).store = 0) :=
  ⟨by decide, claim_C2 noFaults [] (by decide)⟩

/-- Claim C3: when client construction fails, `main` returns failure at once
with the store untouched, the report is not written, no collection is
processed and no `create_collection` is called, and the process exits 1. -/
theorem claim_C3 (f : Faults) (s0 : Store) (h : f.initFail = true) :
    main f s0 = ⟨false, s0, none, [], []⟩ ∧ exitCode f s0 = 1 := by
  refine ⟨main_eq_initFail f s0 h, ?_⟩
  simp [exitCode, main_eq_initFail f s0 h]

/-- Witness for C3: a run whose client construction fails. -/
theorem claim_C3_witness :
    main initFailOnly [] = ⟨false, [], none, [], []⟩ ∧
      exitCode initFailOnly [] = 1 :=
  claim_C3 initFailOnly [] rfl

/-- Claim C4: when the creation loop fails (a `create_collection` call
raised), `main` returns failure, the report is not written, the process
exits 1, and fewer than the five configured collections were processed
(the loop returned at the failing one). -/
theorem claim_C4 (f : Faults) (s0 : Store)
    (h : (creationLoop f s0 get_collection_configs).ok = false) :
    (main f s0).success = false ∧ (main f s0).report = none ∧
      exitCode f s0 = 1 ∧
      (main f s0).existedFlags.length < get_collection_configs.length := by
  cases hf : f.initFail
  · have hm := main_eq_loopFail f s0 hf h
    rw [hm]
    exact ⟨rfl, rfl, by simp [exitCode, hm],
      creationLoop_fail_flags f get_collection_configs s0 h⟩
  · have hm := main_eq_initFail f s0 hf
    rw [hm]
    exact ⟨rfl, rfl, by simp [exitCode, hm], by simp [get_collection_configs]⟩

/-- Witness for C4: every `create_collection` fails, so the loop fails on
the very first configured collection. -/
theorem claim_C4_witness :
    (main createFailAll []).success = false ∧
      (main createFailAll []).report = none ∧
      exitCode createFailAll [] = 1 ∧
      (main createFailAll []).existedFlags.length <
        get_collection_configs.length :=
  claim_C4 createFailAll [] (by decide)

/-- Claim C5: when the creation loop succeeded but the verification/listing
pass fails, `main` returns failure, the report is not written, and the
process exits 1 rather than 0. -/
theorem claim_C5 (f : Faults) (s0 : Store)
    (h1 : f.initFail = false)
    (h2 : (creationLoop f s0 get_collection_configs).ok = true)
    (h3 : verifyPass f (creationLoop f s0 get_collection_configs).store = none) :
    (main f s0).success = false ∧ (main f s0).report = none ∧
      exitCode f s0 = 1 := by
  have hm := main_eq_verifyFail f s0 h1 h2 h3
  rw [hm]
  exact ⟨rfl, rfl, by simp [exitCode, hm]⟩

/-- Witness for C5: all five collections are created, then
`list_collections` fails. -/
theorem claim_C5_witness :
    (main listFailOnly []).success = false ∧
      (main listFailOnly []).report = none ∧
      exitCode listFailOnly [] = 1 :=
  claim_C5 listFailOnly [] rfl (by decide) (by decide)

/-- Claim C6: the report is written exactly on the successful runs, and it
then is an array with one record per collection of the store at listing
time, each record holding exactly the listed collection's `name` and
`metadata` and its `count` as `document_count` (a `Nat`, hence
non-negative).  The store is assumed to hold uniquely named collections,
the collaborator's own invariant. -/
theorem claim_C6 (f : Faults) (s0 : Store) (hnd : (storeNames s0).Nodup) :
    ((main f s0).success = true ↔ ((main f s0).report).isSome = true) ∧
      ∀ r, (main f s0).report = some r →
        r.length = (main f s0).store.length ∧
          ∀ e ∈ r, ∃ c ∈ (main f s0).store,
            e.name = c.name ∧ e.metadata = c.metadata ∧
              e.document_count = c.docCount := by
  cases hf : f.initFail
  · cases hok : (creationLoop f s0 get_collection_configs).ok
    · rw [main_eq_loopFail f s0 hf hok]
      exact ⟨by simp, fun r hr => by cases hr⟩
    · cases hv : verifyPass f (creationLoop f s0 get_collection_configs).store with
      | none =>
        rw [main_eq_verifyFail f s0 hf hok hv]
        exact ⟨by simp, fun r hr => by cases hr⟩
      | some r0 =>
        rw [main_eq_verifyOk f s0 r0 hf hok hv]
        refine ⟨by simp, ?_⟩
        intro r hr
        have hrr : r0 = r := by simpa using hr
        subst hrr
        obtain ⟨hlen, hmem⟩ := verifyPass_spec f _ r0 hv
        have hnd' :
            (storeNames (creationLoop f s0 get_collection_configs).store).Nodup :=
          creationLoop_nodup f get_collection_configs s0 hnd
        refine ⟨hlen, ?_⟩
        intro e he
        obtain ⟨c, hc, h1, h2, c2, h3, h4⟩ := hmem e he
        have hself :
            findColl (creationLoop f s0 get_collection_configs).store c.name
              = some c :=
          findColl_self _ c hnd' hc
        rw [hself] at h3
        cases h3
        exact ⟨c, hc, h1, h2, h4⟩
  · rw [main_eq_initFail f s0 hf]
    exact ⟨by simp, fun r hr => by cases hr⟩

/-- Witness for C6: a fault-free run from the empty store. -/
theorem claim_C6_witness :
    (storeNames ([] : Store)).Nodup ∧
      (((main noFaults []).success = true ↔
          ((main noFaults []).report).isSome = true) ∧
        ∀ r, (main noFaults []).report = some r →
          r.length = (main noFaults []).store.length ∧
            ∀ e ∈ r, ∃ c ∈ (main noFaults []).store,
              e.name = c.name ∧ e.metadata = c.metadata ∧
                e.document_count = c.docCount) :=
  ⟨by decide, claim_C6 noFaults [] (by decide)⟩

/-- Claim C7: a configured name whose collection pre-exists, on a run whose
existence check for it does not fail transiently, is never passed to
`create_collection`, and whenever the loop records an outcome for it, that
outcome is the `already exists` branch — pre-existence is never an error. -/
theorem claim_C7 (f : Faults) (s0 : Store) (cfg : CollectionSpec)
    (_hcfg : cfg ∈ get_collection_configs)
    (hpre : cfg.name ∈ storeNames s0)
    (hg : f.getFail cfg.name = false) :
    cfg.name ∉ (main f s0).createCalls ∧
      ∀ b, (cfg.name, b) ∈ (main f s0).existedFlags → b = true := by
  cases hf : f.initFail
  · obtain ⟨_, hflags, hcalls⟩ := main_trace f s0 hf
    rw [hcalls, hflags]
    exact creationLoop_preexisting f cfg.name hg get_collection_configs s0 hpre
  · rw [main_eq_initFail f s0 hf]
    exact ⟨by simp, fun b hb => by cases hb⟩

/-- Witness for C7: `user_portfolios` pre-exists (with 7 documents and other
metadata); a fault-free run never calls `create_collection` for it. -/
theorem claim_C7_witness :
    "user_portfolios" ∈ storeNames preEx7 ∧
      "user_portfolios" ∉ (main noFaults preEx7).createCalls ∧
      ∀ b, ("user_portfolios", b) ∈ (main noFaults preEx7).existedFlags →
        b = true := by
  refine ⟨by decide, ?_⟩
  exact claim_C7 noFaults preEx7 (get_collection_configs.get ⟨1, by decide⟩)
    (by decide) (by decide) rfl

/-- Claim C8: when the existence check fails — for any reason, presence of
the collection included — the loop body silently proceeds to call
`create_collection`, and it can only fail through that call (its own fault
or the name genuinely existing), never through the swallowed
`get_collection` failure itself. -/
theorem claim_C8 (f : Faults) (s : Store) (cfg : CollectionSpec)
    (hg : f.getFail cfg.name = true) :
    (processConfig f s cfg).createCalled = true ∧
      ((processConfig f s cfg).ok = false →
        f.createFail cfg.name = true ∨ (findColl s cfg.name).isSome = true) := by
  have hp : processConfig f s cfg = createStep f s cfg := by
    simp [processConfig, hg]
  rw [hp]
  cases h1 : f.createFail cfg.name
  · cases h2 : (findColl s cfg.name).isSome
    · simp [createStep, h1, h2]
    · simp [createStep, h1, h2]
  · simp [createStep, h1]

/-- Witness for C8: a transiently failing existence check on an empty store
still leads to a `create_collection` call. -/
theorem claim_C8_witness :
    (processConfig getFailAll [] ⟨"x", []⟩).createCalled = true ∧
      ((processConfig getFailAll [] ⟨"x", []⟩).ok = false →
        getFailAll.createFail "x" = true ∨ (findColl [] "x").isSome = true) :=
  claim_C8 getFailAll [] ⟨"x", []⟩ rfl

/-- Claim C9: a run only ever appends fresh configured collections to the
store: the final store is the initial one followed by zero-document copies
of configured records, so every collection present before the run is still
present afterwards, its metadata and document count unchanged, and nothing
is ever deleted or modified. -/
theorem claim_C9 (f : Faults) (s0 : Store) :
    ∃ t, (main f s0).store = s0 ++ t ∧
      ∀ c ∈ t, ∃ cfg ∈ get_collection_configs, c = ⟨cfg.name, cfg.metadata, 0⟩ :=
  main_store_append f s0

/-- Claim C10: there is no rollback: even when `main` fails (and the process
exits 1), the final store is the initial one plus the collections the run
managed to create before the failure — they remain in the store. -/
theorem claim_C10 (f : Faults) (s0 : Store) (h : (main f s0).success = false) :
    exitCode f s0 = 1 ∧
      ∃ t, (main f s0).store = s0 ++ t ∧
        ∀ c ∈ t, ∃ cfg ∈ get_collection_configs, c = ⟨cfg.name, cfg.metadata, 0⟩ :=
  ⟨by simp [exitCode, h], main_store_append f s0⟩

/-- Witness for C10: creation of the third collection fails; the run fails
yet the two collections created before it are still in the store. -/
theorem claim_C10_witness :
    (main createFailGA []).success = false ∧
      storeNames (main createFailGA []).store =
        ["bitcoin_historical_data", "user_portfolios"] ∧
      (exitCode createFailGA [] = 1 ∧
        ∃ t, (main createFailGA []).store = [] ++ t ∧
          ∀ c ∈ t, ∃ cfg ∈ get_collection_configs,
            c = ⟨cfg.name, cfg.metadata, 0⟩) :=
  ⟨by decide, by decide, claim_C10 createFailGA [] (by decide)⟩

end InitChroma
